import Mathlib

/-!
Verification of the benchmark execution engine of the `vector-db-comparison`
repository: the statistics aggregation, the retrying recall-probe call, the
checkpointed recall sweep, the bounded-concurrency query pool and the batched
upsert loop are embedded as Lean definitions and the specified properties are
proved or refuted against them.

Numbers: the TypeScript code computes with IEEE doubles.  We idealise a
JavaScript number as either a real number or one of the special values
`NaN`, `Infinity`, `-Infinity` (type `JsVal` below); real-valued inputs are
taken in `ℝ` (or in `ℚ` where only equality of recorded data matters).
-/

namespace VDB

/-! ## Errors and the retrying recall-probe call

Source: `src/recall-benchmark.ts`, lines 206-233.  The error thrown by the
backend is inspected only through its optional numeric `status` field. -/

/-- A thrown backend error as the retry loop sees it: an optional HTTP status. -/
structure JsError where
  status : Option ℕ
deriving DecidableEq

/-- Retry classification of the recall-probe loop, from
`recall-benchmark.ts:221`: `err.status !== undefined && err.status >= 500`. -/
def isRetryableRecall (e : JsError) : Bool :=
  match e.status with
  | some s => 500 ≤ s
  | none => false

/-- Retry classification as the specification words it for the default
policy: HTTP status of at least 500, or exactly 429. -/
def isRetryableSpec (e : JsError) : Bool :=
  match e.status with
  | some s => 500 ≤ s || s = 429
  | none => false

/-- The retry loop of `recall-benchmark.ts:209-233`.  `op n` is the outcome of
the `(n+1)`-th invocation of the probed operation.  The loop keeps a counter
`attempt` of retries used so far and retries while the error is retryable and
`attempt < MAX_RETRIES`; the backoff before the retry that becomes attempt
`attempt+1` is `base * 2 ^ ((attempt+1) - 1) = base * 2 ^ attempt`.  We carry
the loop as structural recursion on `remaining = MAX_RETRIES - attempt`, and
return the final outcome together with the list of backoff suspensions, in
order. -/
def retryGo (op : ℕ → Except JsError α) (base : ℕ) :
    ℕ → ℕ → Except JsError α × List ℕ
  | 0, attempt =>
    (match op attempt with
     | .ok v => (.ok v, [])
     | .error e => (.error e, []))
  | r + 1, attempt =>
    match op attempt with
    | .ok v => (.ok v, [])
    | .error e =>
      if isRetryableRecall e then
        let rest := retryGo op base r (attempt + 1)
        (rest.1, base * 2 ^ attempt :: rest.2)
      else
        (.error e, [])

/-- Entry point of the retry loop: attempt counter starts at `0`, so
`maxRetries` retries remain. -/
def runRetry (op : ℕ → Except JsError α) (maxRetries base : ℕ) :
    Except JsError α × List ℕ :=
  retryGo op base maxRetries 0

/-- `MAX_RETRIES` constant of `recall-benchmark.ts:15`. -/
def MAX_RETRIES : ℕ := 3

/-- `RETRY_BASE_MS` constant of `recall-benchmark.ts:16`. -/
def RETRY_BASE_MS : ℕ := 1000

/-! ## Recall runs and the checkpoint store

Source: `src/recall-benchmark.ts`, lines 18-26 and 121-160.  The composite
configuration key is the string `"namespace:top_k"`; since the decimal
rendering of `top_k` contains no colon, the key determines the pair (for the
colon-free namespace names of this repository), and we model it by the pair
it encodes. -/

/-- One measured recall-probe call (`RecallRun` of `recall-benchmark.ts`).
Field `ns` is the `namespace` field of the source (a Lean keyword). -/
structure RecallRun where
  ns : String
  top_k : ℕ
  run : ℕ
  avg_recall : ℚ
  avg_ann_count : ℚ
  avg_exhaustive_count : ℚ
  latency_ms : ℚ
deriving DecidableEq

/-- Persisted checkpoint (`Checkpoint` of `recall-benchmark.ts:123-126`). -/
structure Checkpoint where
  raw_runs : List RecallRun
  completedConfigs : List (String × ℕ)
deriving DecidableEq

/-- The composite configuration key of `recall-benchmark.ts:158-160`,
modelled by the pair the string `"namespace:top_k"` encodes. -/
def configKey (ns : String) (top_k : ℕ) : String × ℕ :=
  (ns, top_k)

/-- The checkpoint file as `loadCheckpoint` sees it: absent, unparseable
JSON, or parsed JSON in which each of the two expected fields is present or
missing (`?? []` applies to a missing field). -/
inductive CheckpointFile where
  | absent
  | corrupt
  | parsed (raw_runs : Option (List RecallRun))
      (completedConfigs : Option (List (String × ℕ)))
deriving DecidableEq

/-- The empty checkpoint returned by `loadCheckpoint` when the file is
absent or corrupt (`recall-benchmark.ts:142`). -/
def emptyCheckpoint : Checkpoint :=
  { raw_runs := [], completedConfigs := [] }

/-- `loadCheckpoint` of `recall-benchmark.ts:128-143`: parse failure and
absence both yield the empty checkpoint; missing fields default to `[]`. -/
def loadCheckpoint : CheckpointFile → Checkpoint
  | .absent => emptyCheckpoint
  | .corrupt => emptyCheckpoint
  | .parsed rr cc => { raw_runs := rr.getD [], completedConfigs := cc.getD [] }

/-- `saveCheckpoint` of `recall-benchmark.ts:145-148`: the file is
overwritten with the full serialisation of the checkpoint, so both fields
are present on the next load. -/
def saveCheckpoint (c : Checkpoint) : CheckpointFile :=
  .parsed (some c.raw_runs) (some c.completedConfigs)

/-! ## JavaScript numbers

A JavaScript number, idealised: a real number, `NaN`, or a signed infinity.
The zero sign of IEEE arithmetic is not tracked (`-0` is identified with
`0`; the two compare equal in JavaScript and behave identically in every
computation the benchmark code performs). -/

/-- Idealised JavaScript number. -/
inductive JsVal where
  | num (x : ℝ)
  | nan
  | inf
  | neginf

/-- JavaScript addition on idealised numbers. -/
noncomputable def jsAdd : JsVal → JsVal → JsVal
  | .nan, _ => .nan
  | _, .nan => .nan
  | .num a, .num b => .num (a + b)
  | .inf, .neginf => .nan
  | .neginf, .inf => .nan
  | .inf, _ => .inf
  | _, .inf => .inf
  | .neginf, _ => .neginf
  | _, .neginf => .neginf

/-- JavaScript subtraction on idealised numbers. -/
noncomputable def jsSub : JsVal → JsVal → JsVal
  | .nan, _ => .nan
  | _, .nan => .nan
  | .num a, .num b => .num (a - b)
  | .inf, .inf => .nan
  | .neginf, .neginf => .nan
  | .inf, _ => .inf
  | .neginf, _ => .neginf
  | _, .inf => .neginf
  | _, .neginf => .inf

/-- JavaScript multiplication on idealised numbers. -/
noncomputable def jsMul : JsVal → JsVal → JsVal
  | .nan, _ => .nan
  | _, .nan => .nan
  | .num a, .num b => .num (a * b)
  | .inf, .inf => .inf
  | .inf, .neginf => .neginf
  | .neginf, .inf => .neginf
  | .neginf, .neginf => .inf
  | .inf, .num b => if b = 0 then .nan else if 0 < b then .inf else .neginf
  | .num a, .inf => if a = 0 then .nan else if 0 < a then .inf else .neginf
  | .neginf, .num b => if b = 0 then .nan else if 0 < b then .neginf else .inf
  | .num a, .neginf => if a = 0 then .nan else if 0 < a then .neginf else .inf

/-- JavaScript division on idealised numbers (zero signs identified). -/
noncomputable def jsDiv : JsVal → JsVal → JsVal
  | .nan, _ => .nan
  | _, .nan => .nan
  | .num a, .num b =>
    if b = 0 then (if a = 0 then .nan else if 0 < a then .inf else .neginf)
    else .num (a / b)
  | .num _, .inf => .num 0
  | .num _, .neginf => .num 0
  | .inf, .num b => if 0 ≤ b then .inf else .neginf
  | .neginf, .num b => if 0 ≤ b then .neginf else .inf
  | .inf, _ => .nan
  | .neginf, _ => .nan

/-- JavaScript `Math.sqrt` on idealised numbers. -/
noncomputable def jsSqrt : JsVal → JsVal
  | .nan => .nan
  | .inf => .inf
  | .neginf => .nan
  | .num a => if a < 0 then .nan else .num (Real.sqrt a)

/-- JavaScript `Math.min(...)` over a spread list (`Infinity` when empty). -/
def jsMinList : List ℝ → JsVal
  | [] => .inf
  | x :: xs => .num (xs.foldl min x)

/-- JavaScript `Math.max(...)` over a spread list (`-Infinity` when empty). -/
def jsMaxList : List ℝ → JsVal
  | [] => .neginf
  | x :: xs => .num (xs.foldl max x)

/-! ## Statistics aggregation

Source: `src/recall-benchmark.ts` lines 59-81 (`mean`, `std`, `median`,
`ci95`) and `src/throughput-benchmark.ts` lines 35-39 (`percentile`). -/

/-- The running sum `values.reduce((a, b) => a + b, 0)`. -/
def listSum (xs : List ℝ) : ℝ :=
  xs.foldl (· + ·) 0

/-- `mean` of `recall-benchmark.ts:59-61`: the sum divided by the length
(JavaScript division: `0 / 0 = NaN` on the empty list). -/
noncomputable def mean (xs : List ℝ) : JsVal :=
  jsDiv (.num (listSum xs)) (.num xs.length)

/-- The accumulation `values.reduce((sum, v) => sum + (v - m) ** 2, 0)`
of `recall-benchmark.ts:65`, performed in JavaScript arithmetic. -/
noncomputable def sqDevSum (xs : List ℝ) (m : JsVal) : JsVal :=
  xs.foldl (fun acc v => jsAdd acc (jsMul (jsSub (.num v) m) (jsSub (.num v) m)))
    (.num 0)

/-- `std` of `recall-benchmark.ts:63-67`: the square root of the sum of
squared deviations divided by `n - 1`.  There is no guard on the length. -/
noncomputable def std (xs : List ℝ) : JsVal :=
  jsSqrt (jsDiv (sqDevSum xs (mean xs)) (jsSub (.num xs.length) (.num 1)))

/-- `median` of `recall-benchmark.ts:69-73`: middle element of the
ascending sort for odd length, average of the two middle elements for even
length; on the empty list the out-of-range accesses yield `NaN`. -/
noncomputable def median (values : List ℝ) : JsVal :=
  let sorted := values.insertionSort (· ≤ ·)
  if sorted.isEmpty then .nan
  else if sorted.length % 2 ≠ 0 then .num (sorted.getD (sorted.length / 2) 0)
  else .num ((sorted.getD (sorted.length / 2 - 1) 0 +
              sorted.getD (sorted.length / 2) 0) / 2)

/-- The `t` factor chosen by `ci95` at `recall-benchmark.ts:79`:
`1.96` for length at least `30`, else the fixed `2.093`. -/
noncomputable def ciT (xs : List ℝ) : ℝ :=
  if 30 ≤ xs.length then 1.96 else 2.093

/-- `ci95` of `recall-benchmark.ts:75-81`: `mean ± t * std / sqrt n`,
computed in JavaScript arithmetic. -/
noncomputable def ci95 (values : List ℝ) : JsVal × JsVal :=
  let m := mean values
  let se := jsDiv (std values) (.num (Real.sqrt values.length))
  let t := ciT values
  (jsSub m (jsMul (.num t) se), jsAdd m (jsMul (.num t) se))

/-- `percentile` of `throughput-benchmark.ts:35-39`: sort ascending, take
index `ceil(p/100 * n) - 1` clamped from below by `0`; an out-of-range
access (`undefined` in JavaScript) is `none`. -/
noncomputable def percentile (arr : List ℝ) (p : ℚ) : Option ℝ :=
  let sorted := arr.insertionSort (· ≤ ·)
  let idx : ℤ := ⌈p / 100 * (sorted.length : ℚ)⌉ - 1
  sorted.get? (max 0 idx).toNat

/-- The index selection as the specification words it: `ceil(p/100 * n) - 1`
clamped to the interval `[0, n-1]`. -/
noncomputable def percentileSpec (arr : List ℝ) (p : ℚ) : Option ℝ :=
  let sorted := arr.insertionSort (· ≤ ·)
  let idx : ℤ := max 0 (min ((sorted.length : ℤ) - 1)
    (⌈p / 100 * (sorted.length : ℚ)⌉ - 1))
  sorted.get? idx.toNat

/-! Exact real-number counterparts of the aggregation formulas, used to
state what the JavaScript computations evaluate to on well-sized input. -/

/-- Exact mean `Σ xs / n`. -/
noncomputable def meanR (xs : List ℝ) : ℝ :=
  listSum xs / xs.length

/-- Exact sum of squared deviations from `m`, folded in the same order as
the source. -/
def sqTotR (xs : List ℝ) (m : ℝ) : ℝ :=
  xs.foldl (fun acc v => acc + (v - m) * (v - m)) 0

/-- Exact Bessel-corrected sample standard deviation. -/
noncomputable def stdR (xs : List ℝ) : ℝ :=
  Real.sqrt (sqTotR xs (meanR xs) / ((xs.length : ℝ) - 1))

/-! ## Per-configuration summary

Source: `src/recall-benchmark.ts` lines 28-44 and 83-107. -/

/-- `ConfigSummary` of `recall-benchmark.ts:28-44`, with the statistics as
idealised JavaScript numbers.  Field `ns` is the source's `namespace`. -/
structure ConfigSummary where
  ns : String
  top_k : ℕ
  runs : ℕ
  recall_mean : JsVal
  recall_std : JsVal
  recall_ci95_lower : JsVal
  recall_ci95_upper : JsVal
  recall_min : JsVal
  recall_max : JsVal
  recall_median : JsVal
  ann_mean : JsVal
  ann_std : JsVal
  exh_mean : JsVal
  exh_std : JsVal
  latency_mean : JsVal
  latency_std : JsVal
  latency_median : JsVal

/-- `summarize` of `recall-benchmark.ts:83-107`.  The source reads
`runs[0].namespace` and `runs[0].top_k` with no guard; on the empty list
that access throws (`undefined` has no properties), which we model as
`none`. -/
noncomputable def summarize (runs : List RecallRun) : Option ConfigSummary :=
  match runs with
  | [] => none
  | r0 :: _ =>
    let recalls := runs.map fun r => (r.avg_recall : ℝ)
    let annCounts := runs.map fun r => (r.avg_ann_count : ℝ)
    let exhCounts := runs.map fun r => (r.avg_exhaustive_count : ℝ)
    let latencies := runs.map fun r => (r.latency_ms : ℝ)
    let ci := ci95 recalls
    some
      { ns := r0.ns
        top_k := r0.top_k
        runs := runs.length
        recall_mean := mean recalls
        recall_std := std recalls
        recall_ci95_lower := ci.1
        recall_ci95_upper := ci.2
        recall_min := jsMinList recalls
        recall_max := jsMaxList recalls
        recall_median := median recalls
        ann_mean := mean annCounts
        ann_std := std annCounts
        exh_mean := mean exhCounts
        exh_std := std exhCounts
        latency_mean := mean latencies
        latency_std := std latencies
        latency_median := median latencies }

/-! ## The checkpointed recall sweep

Source: `src/recall-benchmark.ts`, `runRecallBenchmark` (lines 162-315).
The backend recall probe is an oracle `probe` giving, for a namespace, a
`top_k` and a run index, the measured `(avg_recall, avg_ann_count,
avg_exhaustive_count, latency_ms)` of that call.  Fatal probe errors abort
the whole orchestrator run; the model covers the executions that reach the
summary phase, and additionally records every probe call issued and every
checkpoint written, so that skipping and resumption can be stated. -/

/-- Outcome of one successful recall-probe call. -/
structure ProbeResult where
  avg_recall : ℚ
  avg_ann_count : ℚ
  avg_exhaustive_count : ℚ
  latency_ms : ℚ

/-- State of the sweep loop: the accumulated raw runs (`rawRuns`), the
completed-configuration set (`completedConfigs`, as the list of keys it
holds), plus two observation records: every probe call issued
(`(namespace, top_k, run)` triples) and every checkpoint saved, in order. -/
structure SweepState where
  rawRuns : List RecallRun
  completed : List (String × ℕ)
  calls : List (String × ℕ × ℕ)
  saved : List Checkpoint

/-- The `runs` measured for one `(namespace, top_k)` pair
(`recall-benchmark.ts:200-248`): run indices `0` to `runsN - 1`, each
recorded with `run := run + 1` and the probe's measurements. -/
def measurePair (probe : String → ℕ → ℕ → ProbeResult)
    (ns : String) (top_k runsN : ℕ) : List RecallRun :=
  (List.range runsN).map fun run =>
    let r := probe ns top_k run
    { ns := ns, top_k := top_k, run := run + 1,
      avg_recall := r.avg_recall, avg_ann_count := r.avg_ann_count,
      avg_exhaustive_count := r.avg_exhaustive_count,
      latency_ms := r.latency_ms }

/-- Body of the per-configuration loop (`recall-benchmark.ts:194-256`): a
pair already in the completed set is skipped; otherwise its runs are
measured and appended, the key is added to the completed set, and a
checkpoint with the accumulated state is saved. -/
def stepConfig (probe : String → ℕ → ℕ → ProbeResult) (runsN : ℕ)
    (st : SweepState) (pair : String × ℕ) : SweepState :=
  if configKey pair.1 pair.2 ∈ st.completed then st
  else
    let newRuns := measurePair probe pair.1 pair.2 runsN
    let raw := st.rawRuns ++ newRuns
    let comp := st.completed ++ [configKey pair.1 pair.2]
    { rawRuns := raw
      completed := comp
      calls := st.calls ++ (List.range runsN).map fun r => (pair.1, pair.2, r)
      saved := st.saved ++ [{ raw_runs := raw, completedConfigs := comp }] }

/-- The cartesian iteration order of the sweep: for each namespace, each
`top_k` value (`recall-benchmark.ts:191-194`). -/
def pairList (namespaces : List String) (topKs : List ℕ) : List (String × ℕ) :=
  namespaces.foldr (fun n acc => topKs.map (fun k => (n, k)) ++ acc) []

/-- The measurement phase of `runRecallBenchmark` starting from a loaded
checkpoint (`recall-benchmark.ts:187-257`). -/
def runSweep (cp : Checkpoint) (namespaces : List String) (topKs : List ℕ)
    (runsN : ℕ) (probe : String → ℕ → ℕ → ProbeResult) : SweepState :=
  (pairList namespaces topKs).foldl (stepConfig probe runsN)
    { rawRuns := cp.raw_runs, completed := cp.completedConfigs,
      calls := [], saved := [] }

/-- The filter of `recall-benchmark.ts:265-267`: the raw runs belonging to
one `(namespace, top_k)` pair. -/
def configRuns (raw : List RecallRun) (ns : String) (top_k : ℕ) :
    List RecallRun :=
  raw.filter fun r => r.ns == ns && r.top_k == top_k

/-- The summary phase of `recall-benchmark.ts:261-270`: one `summarize`
call per `(namespace, top_k)` pair of the current invocation. -/
noncomputable def sweepSummaries (namespaces : List String) (topKs : List ℕ)
    (raw : List RecallRun) : List (Option ConfigSummary) :=
  (pairList namespaces topKs).map fun p => summarize (configRuns raw p.1 p.2)

/-- A checkpoint is well-formed when every completed key has at least one
matching stored raw run.  Checkpoints written by the code are well-formed
whenever the writing invocation measured at least one run per
configuration. -/
def goodCheckpoint (cp : Checkpoint) : Prop :=
  ∀ p ∈ cp.completedConfigs,
    ∃ r ∈ cp.raw_runs, r.ns = p.1 ∧ r.top_k = p.2

/-- Well-formedness of a sweep state: every completed key has at least one
matching accumulated raw run (the sweep-state counterpart of
`goodCheckpoint`). -/
def SweepGood (st : SweepState) : Prop :=
  ∀ q ∈ st.completed, ∃ r ∈ st.rawRuns, r.ns = q.1 ∧ r.top_k = q.2

/-- The mechanism asserted for the summary-phase crash: resuming from a
well-formed checkpoint (as any checkpoint recorded by a previous
invocation with a positive run count is, whatever its namespace and
`top_k` option lists were) and sweeping with a positive run count passes
an empty run list to `summarize`. -/
def emptySummarizeFromResume : Prop :=
  ∃ (cp : Checkpoint) (namespaces : List String) (topKs : List ℕ)
    (runsN : ℕ) (probe : String → ℕ → ℕ → ProbeResult),
    goodCheckpoint cp ∧ 1 ≤ runsN ∧
    none ∈ sweepSummaries namespaces topKs
      (runSweep cp namespaces topKs runsN probe).rawRuns

/-! ## The bounded-concurrency query pool

Source: `src/throughput-benchmark.ts`, lines 122-155.  `concurrency`
identical workers run `runQuery`; each loop iteration synchronously checks
`completedCount < totalQueries` and claims `queryIndex = completedCount++`
(one atomic step, since no suspension point separates them), then awaits
the query (one suspension point), then records either a latency or an
error and loops.  We model this as a small-step interleaving system: a
scheduler step either lets an idle worker claim the next index (or exit
the loop when the counter is exhausted), or lets an in-flight query
resolve and be recorded.  The guard `if (queryIndex >= totalQueries)
break` of line 133 can never fire (the claimed index is the pre-increment
counter, already checked), so it adds no transition. -/

/-- Control point of one worker of the pool. -/
inductive WStatus where
  | idle
  | working (idx : ℕ)
  | done
deriving DecidableEq

/-- Fixed data of one pool run: the operation count and, for each index,
whether its query succeeds and the latency measured for it. -/
structure PoolConfig where
  total : ℕ
  outcome : ℕ → Bool
  lat : ℕ → ℚ

/-- Interleaving state of the pool: the shared counter `completedCount`,
each worker's control point, the recorded latency and error tallies, and
the trace of claimed indices in claim order. -/
structure PoolState where
  counter : ℕ
  workers : List WStatus
  latencies : List ℚ
  errors : ℕ
  claimed : List ℕ

/-- Initial pool state: counter zero, `k` idle workers, nothing recorded
(`throughput-benchmark.ts:123-128,154`). -/
def initPool (k : ℕ) : PoolState :=
  { counter := 0, workers := List.replicate k .idle,
    latencies := [], errors := 0, claimed := [] }

/-- One scheduler step of the pool. -/
inductive PoolStep (cfg : PoolConfig) : PoolState → PoolState → Prop where
  /-- An idle worker passes the loop check and atomically claims the next
  index (`while (completedCount < totalQueries) { queryIndex =
  completedCount++; ... }`). -/
  | claim (s : PoolState) (w : ℕ) (h : s.workers.get? w = some .idle)
      (hc : s.counter < cfg.total) :
      PoolStep cfg s
        { counter := s.counter + 1
          workers := s.workers.set w (.working s.counter)
          latencies := s.latencies
          errors := s.errors
          claimed := s.claimed ++ [s.counter] }
  /-- An idle worker fails the loop check and leaves the loop. -/
  | exit (s : PoolState) (w : ℕ) (h : s.workers.get? w = some .idle)
      (hc : ¬ s.counter < cfg.total) :
      PoolStep cfg s
        { counter := s.counter
          workers := s.workers.set w .done
          latencies := s.latencies
          errors := s.errors
          claimed := s.claimed }
  /-- The awaited query of a worker resolves; a latency is pushed on
  success, the error count incremented on failure
  (`throughput-benchmark.ts:138-147`). -/
  | finish (s : PoolState) (w i : ℕ) (h : s.workers.get? w = some (.working i)) :
      PoolStep cfg s
        { counter := s.counter
          workers := s.workers.set w .idle
          latencies := if cfg.outcome i then s.latencies ++ [cfg.lat i]
                       else s.latencies
          errors := if cfg.outcome i then s.errors else s.errors + 1
          claimed := s.claimed }

/-- Reachability of pool states under any scheduling. -/
def PoolReach (cfg : PoolConfig) : PoolState → PoolState → Prop :=
  Relation.ReflTransGen (PoolStep cfg)

/-- The pool has resolved: every worker has left its loop
(`await Promise.all(workers)` at `throughput-benchmark.ts:155`). -/
def PoolDone (s : PoolState) : Prop :=
  ∀ st ∈ s.workers, st = WStatus.done

/-- Whether a worker has a query in flight. -/
def isWorking : WStatus → Bool
  | .working _ => true
  | _ => false

/-- Whether a worker has left its loop. -/
def isDone : WStatus → Bool
  | .done => true
  | _ => false

/-- Number of workers with a query in flight. -/
def workingCount (s : PoolState) : ℕ :=
  s.workers.countP isWorking

/-- Number of workers that have left their loop. -/
def doneCount (s : PoolState) : ℕ :=
  s.workers.countP isDone

/-- Inductive invariant of the pool: the claim trace is exactly
`range counter`, the counter never exceeds the total, every claimed index
has either been recorded or is in flight, a worker can only have left its
loop once the counter is exhausted, and the worker count is constant. -/
def PoolInv (cfg : PoolConfig) (k : ℕ) (s : PoolState) : Prop :=
  s.claimed = List.range s.counter ∧
  s.counter ≤ cfg.total ∧
  s.latencies.length + s.errors + workingCount s = s.counter ∧
  (0 < doneCount s → s.counter = cfg.total) ∧
  s.workers.length = k

/-! ## The batched upsert loop

Source: `src/upsert-benchmark.ts`, lines 50-69 and 94-117. -/

/-- A dataset record (`WikiRecord` of `src/parse.ts`). -/
structure WikiRecord where
  id : String
  title : String
  text : String
  vector : List ℝ

/-- `generateSyntheticRecords` of `upsert-benchmark.ts:50-69`: `count`
records, each holding a unit-normalised random vector of the namespace's
dimensionality and fixed-pattern text.  `rand i j` is the oracle for the
`j`-th `Math.random()` draw of record `i`, and `stamp` for `Date.now()`. -/
noncomputable def generateSyntheticRecords (dimensions count : ℕ)
    (rand : ℕ → ℕ → ℝ) (stamp : String) : List WikiRecord :=
  (List.range count).map fun i =>
    let vector := (List.range dimensions).map fun j => rand i j * 2 - 1
    let norm := Real.sqrt (vector.foldl (fun sum v => sum + v * v) 0)
    { id := "benchmark-" ++ stamp ++ "-" ++ toString i
      title := "Benchmark Document " ++ toString i
      text := "This is synthetic benchmark document number " ++ toString i
      vector := vector.map fun v => v / norm }

/-- The batch loop of `upsert-benchmark.ts:101-117`, carried as structural
recursion on a fuel that starts at the record count (for a positive batch
size every iteration consumes at least one record, so the fuel never runs
out).  The loop takes `slice(i, i + batchSize)` while `i < length` and
passes `isFirstBatch: i === 0`; `first` tracks whether the offset `i` is
still zero.  Each list entry is one awaited `ns.upsert` call, in execution
order: `(batch, isFirstBatch)`. -/
def upsertLoopAux (batchSize : ℕ) :
    ℕ → List WikiRecord → Bool → List (List WikiRecord × Bool)
  | 0, _, _ => []
  | _, [], _ => []
  | fuel + 1, l, first =>
    (l.take batchSize, first) :: upsertLoopAux batchSize fuel (l.drop batchSize) false

/-- The sequence of `ns.upsert` calls issued by `runUpsertBenchmark` for a
record list, in order. -/
def upsertBatches (records : List WikiRecord) (batchSize : ℕ) :
    List (List WikiRecord × Bool) :=
  upsertLoopAux batchSize records.length records true

/-- `numBatches` of `upsert-benchmark.ts:96`: `Math.ceil(length / batchSize)`,
as natural-number ceiling division. -/
def numBatches (len batchSize : ℕ) : ℕ :=
  (len + batchSize - 1) / batchSize

/-- A recall probe oracle with constant outcome, used to instantiate
universally quantified statements. -/
def probeZero : String → ℕ → ℕ → ProbeResult :=
  fun _ _ _ => { avg_recall := 0, avg_ann_count := 0,
                 avg_exhaustive_count := 0, latency_ms := 0 }

/-- A sample namespace name used to instantiate universally quantified
statements. -/
def nsA : String :=
  "wiki-openai"

/-! # Theorems -/

/-! ## Retry executor lemmas -/

/-- An operation that always fails with a retryable error exhausts all
remaining retries, suspending before each one, and propagates the error. -/
theorem retryGo_all_error (α : Type) (e : JsError) (b : ℕ)
    (he : isRetryableRecall e = true) :
    ∀ (r attempt : ℕ),
      retryGo (fun _ => (Except.error e : Except JsError α)) b r attempt
        = (Except.error e, (List.range r).map fun i => b * 2 ^ (attempt + i)) := by
  intro r
  induction r with
  | zero =>
    intro attempt
    simp [retryGo]
  | succ n ih =>
    intro attempt
    have hfun : ((fun i => b * 2 ^ (attempt + i)) ∘ (· + 1) : ℕ → ℕ)
        = fun i => b * 2 ^ (attempt + 1 + i) := by
      funext i
      have : attempt + (i + 1) = attempt + 1 + i := by omega
      simp [Function.comp, this]
    simp [retryGo, he, ih (attempt + 1), List.range_succ_eq_map, List.map_map, hfun]

/-- An operation failing with retryable errors on its first `k` invocations
and succeeding on invocation `k + 1` makes the loop return the success
after exactly `k` suspensions of durations `b * 2 ^ 0, …, b * 2 ^ (k-1)`
(offsets shifted by the starting attempt). -/
theorem retryGo_ok_after (α : Type) (op : ℕ → Except JsError α) (b : ℕ) (v : α) :
    ∀ (k r attempt : ℕ), k ≤ r →
      (∀ i, i < k → ∃ e, op (attempt + i) = Except.error e ∧ isRetryableRecall e = true) →
      op (attempt + k) = Except.ok v →
      retryGo op b r attempt
        = (Except.ok v, (List.range k).map fun i => b * 2 ^ (attempt + i)) := by
  intro k
  induction k with
  | zero =>
    intro r attempt _ _ hok
    rw [Nat.add_zero] at hok
    cases r <;> simp [retryGo, hok]
  | succ n ih =>
    intro r attempt hkr hfail hok
    obtain ⟨r', rfl⟩ : ∃ r', r = r' + 1 := ⟨r - 1, by omega⟩
    obtain ⟨e, hoe, hre⟩ := hfail 0 n.succ_pos
    rw [Nat.add_zero] at hoe
    have hfail' : ∀ i, i < n →
        ∃ e, op (attempt + 1 + i) = Except.error e ∧ isRetryableRecall e = true := by
      intro i hi
      have := hfail (i + 1) (by omega)
      rwa [show attempt + (i + 1) = attempt + 1 + i by omega] at this
    have hok' : op (attempt + 1 + n) = Except.ok v := by
      rwa [show attempt + (n + 1) = attempt + 1 + n by omega] at hok
    have hrec := ih r' (attempt + 1) (by omega) hfail' hok'
    have hfun : ((fun i => b * 2 ^ (attempt + i)) ∘ (· + 1) : ℕ → ℕ)
        = fun i => b * 2 ^ (attempt + 1 + i) := by
      funext i
      have : attempt + (i + 1) = attempt + 1 + i := by omega
      simp [Function.comp, this]
    simp [retryGo, hoe, hre, hrec, List.range_succ_eq_map, List.map_map, hfun]

/-! ## Claim C3 -/

/-- C3 counterexample: the recall-probe retry loop classifies status 429 as
not retryable (only status at least 500 is), so an operation failing with
429 propagates immediately with zero retries and zero suspensions —
whereas the claim asserts 429 is retryable.  The specification's wording
of the classifier is `isRetryableSpec`, which disagrees at 429. -/
theorem retry_429_not_retryable :
    isRetryableRecall { status := some 429 } = false ∧
    isRetryableSpec { status := some 429 } = true ∧
    runRetry (fun _ => (Except.error { status := some 429 } : Except JsError ℕ))
        MAX_RETRIES RETRY_BASE_MS
      = (Except.error { status := some 429 }, []) :=
  ⟨rfl, rfl, rfl⟩

/-- C3 (amended): the recall-probe retry classification treats an error as
retryable if and only if its HTTP status is present and at least 500 (429
is not retryable); a non-retryable error propagates immediately with zero
retries; an error that is always retryable propagates once the retry cap
`m` is exhausted, after `m` backoff suspensions. -/
theorem retry_default_classification (α : Type) (e : JsError) (m b : ℕ) :
    (isRetryableRecall e = true ↔ ∃ s, e.status = some s ∧ 500 ≤ s) ∧
    (isRetryableRecall e = false →
      runRetry (fun _ => (Except.error e : Except JsError α)) m b
        = (Except.error e, [])) ∧
    (isRetryableRecall e = true →
      runRetry (fun _ => (Except.error e : Except JsError α)) m b
        = (Except.error e, (List.range m).map fun i => b * 2 ^ i)) := by
  refine ⟨?_, ?_, ?_⟩
  · cases e with
    | mk st =>
      cases st with
      | none => simp [isRetryableRecall]
      | some s => simp [isRetryableRecall]
  · intro h
    cases m <;> simp [runRetry, retryGo, h]
  · intro h
    have := retryGo_all_error α e b h m 0
    simpa [runRetry] using this

/-- C3 witness: a 404 error is not retryable and propagates immediately
with zero suspensions. -/
theorem retry_default_classification_witness :
    isRetryableRecall { status := some 404 } = false ∧
    runRetry (fun _ => (Except.error { status := some 404 } : Except JsError ℕ)) 3 1000
      = (Except.error { status := some 404 }, []) :=
  ⟨rfl, (retry_default_classification ℕ { status := some 404 } 3 1000).2.1 rfl⟩

/-! ## Claim C4 -/

/-- C4: an operation that fails with retryable errors on its first `k`
attempts (`k` at most the retry cap) and then succeeds makes the retry
loop return the success value after exactly `k` backoff suspensions, the
`i`-th lasting `b * 2 ^ i` (that is, `base_delay * 2 ^ (attempt - 1)` for
retry attempt `attempt = i + 1`). -/
theorem retry_transient_then_success (α : Type) (op : ℕ → Except JsError α)
    (k m b : ℕ) (v : α) (hk : k ≤ m)
    (hfail : ∀ i, i < k → ∃ e, op i = Except.error e ∧ isRetryableRecall e = true)
    (hok : op k = Except.ok v) :
    runRetry op m b = (Except.ok v, (List.range k).map fun i => b * 2 ^ i) := by
  have := retryGo_ok_after α op b v k m 0 hk (by simpa using hfail) (by simpa using hok)
  simpa [runRetry] using this

/-- C4 witness: failing twice with status 503 and then succeeding returns
the success value after two suspensions of durations `1000` and `2000`. -/
theorem retry_transient_then_success_witness :
    runRetry (fun i => if i < 2 then Except.error { status := some 503 }
        else Except.ok (42 : ℕ)) 3 1000
      = (Except.ok 42, [1000, 2000]) := by
  have h := retry_transient_then_success ℕ
    (fun i => if i < 2 then Except.error { status := some 503 } else Except.ok (42 : ℕ))
    2 3 1000 42 (by omega)
    (fun i hi => ⟨{ status := some 503 }, by simp [hi], rfl⟩)
    (by simp)
  exact h.trans (by norm_num [List.range_succ])

/-! ## Statistics lemmas -/

/-- The possibly-NaN value `jsSub x NaN` is `NaN` for every `x`. -/
theorem jsSub_nan (x : JsVal) : jsSub x .nan = .nan := by
  cases x <;> rfl

/-- The possibly-NaN value `jsAdd x NaN` is `NaN` for every `x`. -/
theorem jsAdd_nan (x : JsVal) : jsAdd x .nan = .nan := by
  cases x <;> rfl

/-- The possibly-NaN value `jsMul x NaN` is `NaN` for every `x`. -/
theorem jsMul_nan (x : JsVal) : jsMul x .nan = .nan := by
  cases x <;> rfl

/-- On a nonempty list the JavaScript mean is the exact mean. -/
theorem mean_eq_num (xs : List ℝ) (h : xs ≠ []) : mean xs = .num (meanR xs) := by
  have hl : xs.length ≠ 0 := fun hh => h (List.length_eq_zero.mp hh)
  have hn : (xs.length : ℝ) ≠ 0 := Nat.cast_ne_zero.mpr hl
  simp [mean, jsDiv, hn, meanR]

/-- The squared-deviation fold over real inputs never leaves the reals. -/
theorem sqDevSum_fold (xs : List ℝ) (m : ℝ) :
    ∀ a : ℝ,
      xs.foldl (fun acc v =>
          jsAdd acc (jsMul (jsSub (.num v) (.num m)) (jsSub (.num v) (.num m))))
        (.num a)
      = .num (xs.foldl (fun acc v => acc + (v - m) * (v - m)) a) := by
  induction xs with
  | nil => intro a; rfl
  | cons x xs ih =>
    intro a
    rw [List.foldl_cons, List.foldl_cons]
    have hstep : jsAdd (JsVal.num a)
        (jsMul (jsSub (JsVal.num x) (JsVal.num m)) (jsSub (JsVal.num x) (JsVal.num m)))
        = JsVal.num (a + (x - m) * (x - m)) := rfl
    rw [hstep, ih]

/-- The squared-deviation sum computed by `std` is the exact one. -/
theorem sqDevSum_eq_num (xs : List ℝ) (m : ℝ) :
    sqDevSum xs (.num m) = .num (sqTotR xs m) := by
  simpa [sqDevSum, sqTotR] using sqDevSum_fold xs m 0

/-- The squared-deviation fold is nonnegative from a nonnegative start. -/
theorem sqTot_fold_nonneg (xs : List ℝ) (m : ℝ) :
    ∀ a : ℝ, 0 ≤ a → 0 ≤ xs.foldl (fun acc v => acc + (v - m) * (v - m)) a := by
  induction xs with
  | nil => intro a ha; simpa using ha
  | cons x xs ih =>
    intro a ha
    rw [List.foldl_cons]
    exact ih _ (add_nonneg ha (mul_self_nonneg _))

/-- The exact squared-deviation sum is nonnegative. -/
theorem sqTotR_nonneg (xs : List ℝ) (m : ℝ) : 0 ≤ sqTotR xs m :=
  sqTot_fold_nonneg xs m 0 le_rfl

/-- On a list of length at least two, `std` is the exact Bessel-corrected
standard deviation. -/
theorem std_eq_num (xs : List ℝ) (h : 2 ≤ xs.length) : std xs = .num (stdR xs) := by
  have hne : xs ≠ [] := by
    intro hh
    subst hh
    simp at h
  have hc : (2 : ℝ) ≤ (xs.length : ℝ) := by exact_mod_cast h
  have h1 : (xs.length : ℝ) - 1 ≠ 0 := by linarith
  have hx : 0 ≤ sqTotR xs (meanR xs) / ((xs.length : ℝ) - 1) :=
    div_nonneg (sqTotR_nonneg xs _) (by linarith)
  rw [std, mean_eq_num xs hne, sqDevSum_eq_num]
  simp [jsSub, jsDiv, h1, jsSqrt, not_lt.mpr hx, stdR]

/-- On a singleton list, `std` silently evaluates to `NaN` (the divisor
`n - 1` is zero and the numerator is zero, so the division is `0 / 0`). -/
theorem std_singleton (a : ℝ) : std [a] = .nan := by
  have hm : mean [a] = .num a := by
    rw [mean_eq_num [a] (by simp)]
    norm_num [meanR, listSum]
  rw [std, hm, sqDevSum_eq_num]
  norm_num [sqTotR, jsSub, jsDiv, jsSqrt]

/-- On the empty list, `std` silently evaluates to zero (the fold is zero,
the divisor is `-1`, and the square root of `-0` is `-0`, identified with
`0`). -/
theorem std_nil : std ([] : List ℝ) = .num 0 := by
  rw [std]
  norm_num [sqDevSum, jsSub, jsDiv, jsSqrt, Real.sqrt_zero]

/-! ## Claim C7 -/

/-- C7 counterexample: for fewer than two samples the code does not signal
anything: `std` of the empty list is the plain number `0` (not an error,
not even `NaN`), and `std` of a singleton is a quiet `NaN`, again without
any `InsufficientSample` signal. -/
theorem std_small_sample_counterexample :
    std ([] : List ℝ) = JsVal.num 0 ∧ std [(5 : ℝ)] = JsVal.nan :=
  ⟨std_nil, std_singleton 5⟩

/-- C7 (amended): for `n ≥ 2` samples `std` is the Bessel-corrected
standard deviation `sqrt(Σ(x - mean)² / (n-1))`; for `n < 2` no
`InsufficientSample` condition is signalled — the code silently evaluates
the same expression, yielding `NaN` for `n = 1` and `0` for `n = 0`. -/
theorem std_bessel_no_small_sample_signal (xs : List ℝ) :
    (2 ≤ xs.length → std xs = JsVal.num (stdR xs)) ∧
    (xs.length = 1 → std xs = JsVal.nan) ∧
    (xs = [] → std xs = JsVal.num 0) := by
  refine ⟨fun h => std_eq_num xs h, fun h => ?_, fun h => ?_⟩
  · obtain ⟨a, rfl⟩ := List.length_eq_one.mp h
    exact std_singleton a
  · subst h
    exact std_nil

/-- C7 witness: the Bessel-corrected standard deviation at a concrete
two-element sample. -/
theorem std_bessel_witness :
    2 ≤ [(1 : ℝ), 3].length ∧ std [(1 : ℝ), 3] = JsVal.num (stdR [(1 : ℝ), 3]) :=
  ⟨by simp, (std_bessel_no_small_sample_signal [(1 : ℝ), 3]).1 (by simp)⟩

/-! ## Claim C8 -/

/-- C8: on a sample of size `n ≥ 2` the confidence interval is exactly
`mean ± t * std / sqrt n` with `t = 1.96` when `n ≥ 30` and the fixed
`t = 2.093` for every `n < 30`; on a singleton sample the same formula is
evaluated with `std = NaN`, so both bounds are `NaN`. -/
theorem ci95_t_formula (xs : List ℝ) :
    (2 ≤ xs.length → ci95 xs =
      (JsVal.num (meanR xs - ciT xs * (stdR xs / Real.sqrt xs.length)),
       JsVal.num (meanR xs + ciT xs * (stdR xs / Real.sqrt xs.length)))) ∧
    (xs.length = 1 → ci95 xs = (JsVal.nan, JsVal.nan)) ∧
    (30 ≤ xs.length → ciT xs = 1.96) ∧
    (xs.length < 30 → ciT xs = 2.093) := by
  refine ⟨fun h => ?_, fun h => ?_, fun h => ?_, fun h => ?_⟩
  · have hne : xs ≠ [] := by
      intro hh
      subst hh
      simp at h
    have hc : (0 : ℝ) < (xs.length : ℝ) := by
      have : (2 : ℝ) ≤ (xs.length : ℝ) := by exact_mod_cast h
      linarith
    have hsq : Real.sqrt (xs.length : ℝ) ≠ 0 := ne_of_gt (Real.sqrt_pos.mpr hc)
    rw [ci95, mean_eq_num xs hne, std_eq_num xs h]
    simp [jsDiv, hsq, jsMul, jsSub, jsAdd]
  · obtain ⟨a, rfl⟩ := List.length_eq_one.mp h
    rw [ci95]
    simp [std_singleton, jsDiv, jsMul_nan, jsSub_nan, jsAdd_nan]
  · simp [ciT, h]
  · simp [ciT, Nat.not_le.mpr h]

/-- C8 witness: the confidence-interval formula at a concrete two-element
sample. -/
theorem ci95_t_formula_witness :
    2 ≤ [(1 : ℝ), 3].length ∧
    ci95 [(1 : ℝ), 3] =
      (JsVal.num (meanR [(1 : ℝ), 3] -
         ciT [(1 : ℝ), 3] * (stdR [(1 : ℝ), 3] / Real.sqrt ([(1 : ℝ), 3].length : ℕ))),
       JsVal.num (meanR [(1 : ℝ), 3] +
         ciT [(1 : ℝ), 3] * (stdR [(1 : ℝ), 3] / Real.sqrt ([(1 : ℝ), 3].length : ℕ)))) :=
  ⟨by simp, (ci95_t_formula [(1 : ℝ), 3]).1 (by simp)⟩

/-! ## Claim C5 -/

/-- For `p ≤ 100` the percentile index before the lower clamp is at most
`n - 1`, so the lower clamp alone already realises the specified two-sided
clamp. -/
theorem percentile_index_le {xs : List ℝ} {p : ℚ} (hp : p ≤ 100) :
    ⌈p / 100 * ((xs.insertionSort (· ≤ ·)).length : ℚ)⌉ - 1
      ≤ ((xs.insertionSort (· ≤ ·)).length : ℤ) - 1 := by
  have hnn : (0 : ℚ) ≤ ((xs.insertionSort (· ≤ ·)).length : ℚ) := by positivity
  have hdiv : p / 100 ≤ 1 := (div_le_one (by norm_num : (0 : ℚ) < 100)).mpr hp
  have hle : p / 100 * ((xs.insertionSort (· ≤ ·)).length : ℚ)
      ≤ ((xs.insertionSort (· ≤ ·)).length : ℚ) := by
    nlinarith
  have hceil : ⌈p / 100 * ((xs.insertionSort (· ≤ ·)).length : ℚ)⌉
      ≤ ((xs.insertionSort (· ≤ ·)).length : ℤ) := by
    rw [Int.ceil_le]
    exact_mod_cast hle
  omega

/-- C5: for a percentile `p` between `0` and `100` on a nonempty sequence,
the code's index (`ceil(p/100 * n) - 1` clamped from below) equals the
specified index clamped to `[0, n-1]` (nearest rank, no interpolation);
`percentile(xs, 100)` is the maximum of `xs`, and `percentile(xs, 0)` is
the first element of the ascending sort. -/
theorem percentile_nearest_rank (xs : List ℝ) (p : ℚ)
    (hne : xs ≠ []) (_hp0 : 0 ≤ p) (hp100 : p ≤ 100) :
    percentile xs p = percentileSpec xs p ∧
    (∃ m, percentile xs 100 = some m ∧ m ∈ xs ∧ ∀ y ∈ xs, y ≤ m) ∧
    percentile xs 0 = (xs.insertionSort (· ≤ ·)).head? := by
  have hperm := List.perm_insertionSort (· ≤ ·) xs
  have hlen : (xs.insertionSort (· ≤ ·)).length = xs.length := hperm.length_eq
  have hpos : 0 < (xs.insertionSort (· ≤ ·)).length := by
    rw [hlen]
    exact List.length_pos.mpr hne
  have hsorted : (xs.insertionSort (· ≤ ·)).Sorted (· ≤ ·) :=
    List.sorted_insertionSort (· ≤ ·) xs
  have hunf : ∀ q : ℚ, percentile xs q = (xs.insertionSort (· ≤ ·)).get?
      (max 0 (⌈q / 100 * ((xs.insertionSort (· ≤ ·)).length : ℚ)⌉ - 1)).toNat :=
    fun _ => rfl
  have hunfSpec : ∀ q : ℚ, percentileSpec xs q = (xs.insertionSort (· ≤ ·)).get?
      (max 0 (min (((xs.insertionSort (· ≤ ·)).length : ℤ) - 1)
        (⌈q / 100 * ((xs.insertionSort (· ≤ ·)).length : ℚ)⌉ - 1))).toNat :=
    fun _ => rfl
  refine ⟨?_, ?_, ?_⟩
  · rw [hunf p, hunfSpec p, min_eq_right (percentile_index_le hp100)]
  · have hceil : ⌈(100 : ℚ) / 100 * ((xs.insertionSort (· ≤ ·)).length : ℚ)⌉
        = ((xs.insertionSort (· ≤ ·)).length : ℤ) := by
      norm_num
    have hmax : max (0 : ℤ) (((xs.insertionSort (· ≤ ·)).length : ℤ) - 1)
        = ((xs.insertionSort (· ≤ ·)).length : ℤ) - 1 := by
      omega
    have hlt : (((xs.insertionSort (· ≤ ·)).length : ℤ) - 1).toNat
        < (xs.insertionSort (· ≤ ·)).length := by
      omega
    refine ⟨(xs.insertionSort (· ≤ ·)).get
      ⟨(((xs.insertionSort (· ≤ ·)).length : ℤ) - 1).toNat, hlt⟩, ?_, ?_, ?_⟩
    · rw [hunf 100, hceil, hmax]
      exact List.get?_eq_get hlt
    · exact hperm.subset (List.get_mem _ _ _)
    · intro y hy
      obtain ⟨j, hj⟩ := List.mem_iff_get.mp (hperm.symm.subset hy)
      rw [← hj]
      refine hsorted.rel_get_of_le ?_
      have hj2 := j.isLt
      simp only [Fin.le_def]
      omega
  · have h0 : (max (0 : ℤ)
        (⌈(0 : ℚ) / 100 * ((xs.insertionSort (· ≤ ·)).length : ℚ)⌉ - 1)).toNat = 0 := by
      norm_num
    rw [hunf 0, h0]
    exact List.get?_zero _

/-- C5 witness: the percentile properties at a concrete two-element
sequence and percentile 50. -/
theorem percentile_nearest_rank_witness :
    ([(2 : ℝ), 1] ≠ [] ∧ (0 : ℚ) ≤ 50 ∧ (50 : ℚ) ≤ 100) ∧
    (percentile [(2 : ℝ), 1] 50 = percentileSpec [(2 : ℝ), 1] 50 ∧
     (∃ m, percentile [(2 : ℝ), 1] 100 = some m ∧ m ∈ [(2 : ℝ), 1] ∧
       ∀ y ∈ [(2 : ℝ), 1], y ≤ m) ∧
     percentile [(2 : ℝ), 1] 0 = ([(2 : ℝ), 1].insertionSort (· ≤ ·)).head?) :=
  ⟨⟨by simp, by norm_num, by norm_num⟩,
   percentile_nearest_rank [(2 : ℝ), 1] 50 (by simp) (by norm_num) (by norm_num)⟩

/-! ## Claim C6 -/

/-- C6: saving a checkpoint and loading it back returns an equal structure,
and loading an absent or corrupt file returns the empty checkpoint (and
never fails). -/
theorem checkpoint_roundtrip (c : Checkpoint) :
    loadCheckpoint (saveCheckpoint c) = c ∧
    loadCheckpoint .absent = emptyCheckpoint ∧
    loadCheckpoint .corrupt = emptyCheckpoint := by
  refine ⟨?_, rfl, rfl⟩
  cases c
  rfl

/-! ## Claim C9 -/

/-- Recurrence of natural-number ceiling division: removing one full batch
from a nonempty record list lowers the batch count by one. -/
theorem ceil_div_rec (len B : ℕ) (hB : 1 ≤ B) (hlen : 1 ≤ len) :
    (len - B + B - 1) / B + 1 = (len + B - 1) / B := by
  rcases le_or_lt len B with h | h
  · have h1 : len - B = 0 := by omega
    have h2 : (0 + B - 1) / B = 0 := Nat.div_eq_of_lt (by omega)
    have h3 : (len + B - 1) / B = 1 :=
      Nat.div_eq_of_lt_le (by omega) (by omega)
    rw [h1]
    omega
  · have h1 : len - B + B - 1 = len - 1 := by omega
    have h2 : len + B - 1 = (len - 1) + B := by omega
    rw [h1, h2, Nat.add_div_right _ (by omega)]

/-- With enough fuel and a positive batch size, concatenating the batches
of the upsert loop gives back the record list. -/
theorem upsertLoopAux_join (B : ℕ) (hB : 1 ≤ B) :
    ∀ (fuel : ℕ) (l : List WikiRecord) (f : Bool), l.length ≤ fuel →
      ((upsertLoopAux B fuel l f).map Prod.fst).flatten = l := by
  intro fuel
  induction fuel with
  | zero =>
    intro l f h
    have : l = [] := List.eq_nil_of_length_eq_zero (by omega)
    subst this
    rfl
  | succ n ih =>
    intro l f h
    cases l with
    | nil => rfl
    | cons x xs =>
      have hstep : upsertLoopAux B (n + 1) (x :: xs) f
          = ((x :: xs).take B, f) :: upsertLoopAux B n ((x :: xs).drop B) false := rfl
      rw [hstep, List.map_cons, List.flatten_cons,
        ih ((x :: xs).drop B) false (by simp only [List.length_drop, List.length_cons] at h ⊢; omega)]
      exact List.take_append_drop B (x :: xs)

/-- With enough fuel and a positive batch size, the upsert loop issues
exactly `ceil(length / batchSize)` batches. -/
theorem upsertLoopAux_length (B : ℕ) (hB : 1 ≤ B) :
    ∀ (fuel : ℕ) (l : List WikiRecord) (f : Bool), l.length ≤ fuel →
      (upsertLoopAux B fuel l f).length = numBatches l.length B := by
  intro fuel
  induction fuel with
  | zero =>
    intro l f h
    have : l = [] := List.eq_nil_of_length_eq_zero (by omega)
    subst this
    show 0 = (0 + B - 1) / B
    rw [Nat.zero_add]
    exact (Nat.div_eq_of_lt (by omega)).symm
  | succ n ih =>
    intro l f h
    cases l with
    | nil =>
      show 0 = (0 + B - 1) / B
      rw [Nat.zero_add]
      exact (Nat.div_eq_of_lt (by omega)).symm
    | cons x xs =>
      have hstep : upsertLoopAux B (n + 1) (x :: xs) f
          = ((x :: xs).take B, f) :: upsertLoopAux B n ((x :: xs).drop B) false := rfl
      rw [hstep, List.length_cons,
        ih ((x :: xs).drop B) false (by simp only [List.length_drop, List.length_cons] at h ⊢; omega)]
      show numBatches ((x :: xs).drop B).length B + 1 = numBatches (x :: xs).length B
      rw [List.length_drop]
      exact ceil_div_rec (x :: xs).length B hB (by simp)

/-- Once the offset has left zero, every later batch carries a `false`
first-batch flag. -/
theorem upsertLoopAux_flags_false (B : ℕ) :
    ∀ (fuel : ℕ) (l : List WikiRecord),
      ∀ pr ∈ upsertLoopAux B fuel l false, pr.2 = false := by
  intro fuel
  induction fuel with
  | zero =>
    intro l pr h
    simp [upsertLoopAux] at h
  | succ n ih =>
    intro l pr h
    cases l with
    | nil => simp [upsertLoopAux] at h
    | cons x xs =>
      have hstep : upsertLoopAux B (n + 1) (x :: xs) false
          = ((x :: xs).take B, false) :: upsertLoopAux B n ((x :: xs).drop B) false := rfl
      rw [hstep] at h
      rcases List.mem_cons.mp h with h1 | h2
      · rw [h1]
      · exact ih _ pr h2

/-- Natural-number ceiling division is the rational ceiling. -/
theorem numBatches_eq_ceil (count B : ℕ) (hB : 1 ≤ B) :
    (numBatches count B : ℤ) = ⌈(count : ℚ) / (B : ℚ)⌉ := by
  have hB0 : (0 : ℚ) < (B : ℚ) := by exact_mod_cast hB
  have hq1 : numBatches count B * B ≤ count + B - 1 := Nat.div_mul_le_self _ _
  have hq2 : count + B - 1 < (numBatches count B + 1) * B :=
    (Nat.div_lt_iff_lt_mul (by omega)).mp (Nat.lt_succ_self _)
  have hx : (numBatches count B + 1) * B = numBatches count B * B + B := by ring
  have hn1 : numBatches count B * B + 1 ≤ count + B := by omega
  have hn2 : count ≤ numBatches count B * B := by omega
  have hc1 : ((numBatches count B : ℚ)) * B + 1 ≤ (count : ℚ) + B := by
    exact_mod_cast hn1
  have hc2 : (count : ℚ) ≤ ((numBatches count B : ℚ)) * B := by exact_mod_cast hn2
  symm
  rw [Int.ceil_eq_iff]
  refine ⟨?_, ?_⟩
  · push_cast
    rw [lt_div_iff₀ hB0]
    have hexp : ((numBatches count B : ℚ) - 1) * B = (numBatches count B : ℚ) * B - B := by
      ring
    rw [hexp]
    linarith
  · push_cast
    rw [div_le_iff₀ hB0]
    exact hc2

/-- C9: for a positive batch size, the generated `count` synthetic records
are partitioned into `ceil(count / batchSize)` batches whose concatenation
is the record list, issued strictly sequentially in list order through the
backend write path, and the first-batch flag is `true` exactly for the
first batch. -/
theorem upsert_sequential_batching (dimensions count batchSize : ℕ)
    (rand : ℕ → ℕ → ℝ) (stamp : String) (records : List WikiRecord)
    (hrec : records = generateSyntheticRecords dimensions count rand stamp)
    (hB : 1 ≤ batchSize) :
    records.length = count ∧
    ((upsertBatches records batchSize).map Prod.fst).flatten = records ∧
    (upsertBatches records batchSize).length = numBatches count batchSize ∧
    (numBatches count batchSize : ℤ) = ⌈(count : ℚ) / (batchSize : ℚ)⌉ ∧
    (∀ i pr, (upsertBatches records batchSize).get? i = some pr →
      (pr.2 = true ↔ i = 0)) := by
  have hlen : records.length = count := by
    rw [hrec]
    simp [generateSyntheticRecords]
  refine ⟨hlen,
    upsertLoopAux_join batchSize hB records.length records true le_rfl,
    ?_, numBatches_eq_ceil count batchSize hB, ?_⟩
  · rw [upsertBatches,
      upsertLoopAux_length batchSize hB records.length records true le_rfl, hlen]
  · intro i pr h
    unfold upsertBatches at h
    cases records with
    | nil => simp [upsertLoopAux] at h
    | cons x xs =>
      have hstep : upsertLoopAux batchSize (x :: xs).length (x :: xs) true
          = ((x :: xs).take batchSize, true)
            :: upsertLoopAux batchSize xs.length ((x :: xs).drop batchSize) false := rfl
      rw [hstep] at h
      cases i with
      | zero =>
        rw [List.get?_cons_zero] at h
        cases h
        simp
      | succ j =>
        rw [List.get?_cons_succ] at h
        have hmem := List.get?_mem h
        rw [upsertLoopAux_flags_false batchSize xs.length _ _ hmem]
        simp

/-- C9 witness: the batching properties at concrete sizes (three records,
batch size two). -/
theorem upsert_sequential_batching_witness :
    (generateSyntheticRecords 1 3 (fun _ _ => 1) nsA
        = generateSyntheticRecords 1 3 (fun _ _ => 1) nsA ∧ 1 ≤ 2) ∧
    ((generateSyntheticRecords 1 3 (fun _ _ => 1) nsA).length = 3 ∧
     ((upsertBatches (generateSyntheticRecords 1 3 (fun _ _ => 1) nsA) 2).map
        Prod.fst).flatten = generateSyntheticRecords 1 3 (fun _ _ => 1) nsA ∧
     (upsertBatches (generateSyntheticRecords 1 3 (fun _ _ => 1) nsA) 2).length
        = numBatches 3 2 ∧
     (numBatches 3 2 : ℤ) = ⌈(3 : ℚ) / (2 : ℚ)⌉ ∧
     (∀ i pr, (upsertBatches (generateSyntheticRecords 1 3 (fun _ _ => 1) nsA) 2).get? i
          = some pr → (pr.2 = true ↔ i = 0))) :=
  ⟨⟨rfl, by omega⟩, by
    have h := upsert_sequential_batching 1 3 2 (fun _ _ => 1) nsA
      (generateSyntheticRecords 1 3 (fun _ _ => 1) nsA) rfl (by omega)
    simpa using h⟩

/-! ## Claim C2 -/

/-- Replacing one element of a list adjusts `countP` by the difference of
the predicate at the new and at the old element. -/
theorem countP_set_add {α : Type} (l : List α) (p : α → Bool) :
    ∀ (w : ℕ) (x y : α), l.get? w = some y →
      (l.set w x).countP p + (if p y then 1 else 0)
        = l.countP p + (if p x then 1 else 0) := by
  induction l with
  | nil => intro w x y h; simp at h
  | cons a as ih =>
    intro w x y h
    cases w with
    | zero =>
      rw [List.get?_cons_zero] at h
      injection h with h
      subst h
      show ((x :: as).countP p) + _ = _
      rw [List.countP_cons, List.countP_cons]
      ring
    | succ n =>
      rw [List.get?_cons_succ] at h
      have e := ih n x y h
      show ((a :: as.set n x).countP p) + _ = _
      rw [List.countP_cons, List.countP_cons]
      cases hpy : p y <;> cases hpx : p x <;> cases hpa : p a <;>
        simp [hpy, hpx, hpa] at e ⊢ <;> omega

/-- Every pool step preserves the pool invariant. -/
theorem poolInv_step (cfg : PoolConfig) (k : ℕ) (s s' : PoolState)
    (hinv : PoolInv cfg k s) (hstep : PoolStep cfg s s') : PoolInv cfg k s' := by
  obtain ⟨h1, h2, h3, h4, h5⟩ := hinv
  rw [PoolInv, workingCount, doneCount] at *
  cases hstep with
  | claim w h hc =>
    have hw := countP_set_add s.workers isWorking w (.working s.counter) .idle h
    have hd := countP_set_add s.workers isDone w (.working s.counter) .idle h
    simp [isWorking] at hw
    simp [isDone] at hd
    refine ⟨?_, ?_, ?_, ?_, ?_⟩
    · show s.claimed ++ [s.counter] = List.range (s.counter + 1)
      rw [h1, List.range_succ]
    · show s.counter + 1 ≤ cfg.total
      omega
    · show s.latencies.length + s.errors
        + List.countP isWorking (s.workers.set w (WStatus.working s.counter))
        = s.counter + 1
      omega
    · intro hdone
      exfalso
      have hdone' : 0 < List.countP isDone (s.workers.set w (WStatus.working s.counter)) :=
        hdone
      have := h4 (by omega)
      omega
    · show (s.workers.set w (WStatus.working s.counter)).length = k
      simp [h5]
  | exit w h hc =>
    have hw := countP_set_add s.workers isWorking w .done .idle h
    have hd := countP_set_add s.workers isDone w .done .idle h
    simp [isWorking] at hw
    simp [isDone] at hd
    refine ⟨h1, h2, ?_, ?_, ?_⟩
    · show s.latencies.length + s.errors
        + List.countP isWorking (s.workers.set w WStatus.done) = s.counter
      omega
    · intro _
      show s.counter = cfg.total
      omega
    · show (s.workers.set w WStatus.done).length = k
      simp [h5]
  | finish w i h =>
    have hw := countP_set_add s.workers isWorking w .idle (.working i) h
    have hd := countP_set_add s.workers isDone w .idle (.working i) h
    simp [isWorking] at hw
    simp [isDone] at hd
    refine ⟨h1, h2, ?_, ?_, ?_⟩
    · show (if cfg.outcome i then s.latencies ++ [cfg.lat i] else s.latencies).length
        + (if cfg.outcome i then s.errors else s.errors + 1)
        + List.countP isWorking (s.workers.set w WStatus.idle) = s.counter
      cases hout : cfg.outcome i <;> simp [hout] <;> omega
    · intro hdone
      have hdone' : 0 < List.countP isDone (s.workers.set w WStatus.idle) := hdone
      show s.counter = cfg.total
      exact h4 (by omega)
    · show (s.workers.set w WStatus.idle).length = k
      simp [h5]

/-- The pool invariant holds in every reachable state. -/
theorem poolInv_reach (cfg : PoolConfig) (k : ℕ) (s : PoolState)
    (h : PoolReach cfg (initPool k) s) : PoolInv cfg k s := by
  induction h with
  | refl =>
    have hrep : ∀ (p : WStatus → Bool), p WStatus.idle = false →
        List.countP p (List.replicate k WStatus.idle) = 0 := by
      intro p hp
      apply List.countP_eq_zero.mpr
      intro a ha
      rw [List.eq_of_mem_replicate ha, hp]
      simp
    refine ⟨by simp [initPool], by simp [initPool], ?_, ?_, by simp [initPool]⟩
    · show (initPool k).latencies.length + (initPool k).errors
        + List.countP isWorking (initPool k).workers = (initPool k).counter
      simp [initPool, hrep isWorking rfl]
    · intro hdone
      exfalso
      have : List.countP isDone (initPool k).workers = 0 := by
        simp [initPool, hrep isDone rfl]
      rw [doneCount] at hdone
      omega
  | tail _ hstep ih => exact poolInv_step cfg k _ _ ih hstep

/-- C2: in any completed run of the concurrent query pool with at least
one worker, the claimed indices are exactly `0, …, total_operations - 1`
in claim order (each index claimed by exactly one claim event), and the
number of recorded latencies plus the number of recorded errors equals
`total_operations`. -/
theorem pool_exactly_once (cfg : PoolConfig) (k : ℕ) (hk : 1 ≤ k)
    (s : PoolState) (hreach : PoolReach cfg (initPool k) s) (hdone : PoolDone s) :
    s.claimed = List.range cfg.total ∧
    (∀ i, s.claimed.count i = if i < cfg.total then 1 else 0) ∧
    s.latencies.length + s.errors = cfg.total := by
  obtain ⟨h1, h2, h3, h4, h5⟩ := poolInv_reach cfg k s hreach
  have hwork : workingCount s = 0 := by
    rw [workingCount, List.countP_eq_zero.mpr]
    intro a ha
    rw [hdone a ha]
    decide
  have hdc : doneCount s = s.workers.length := by
    rw [doneCount, List.countP_eq_length.mpr]
    intro a ha
    rw [hdone a ha]
    rfl
  have hcnt : s.counter = cfg.total := h4 (by omega)
  refine ⟨by rw [h1, hcnt], ?_, by omega⟩
  intro i
  rw [h1, hcnt]
  by_cases hi : i < cfg.total
  · rw [if_pos hi]
    exact List.count_eq_one_of_mem (List.nodup_range _) (List.mem_range.mpr hi)
  · rw [if_neg hi]
    exact List.count_eq_zero.mpr fun hc => hi (List.mem_range.mp hc)

/-- C2 witness: a completed two-operation run with one worker — indices
`0` and `1` each claimed once, two latencies and zero errors recorded. -/
theorem pool_exactly_once_witness :
    1 ≤ 1 ∧
    ((PoolState.mk 2 [WStatus.done] [3, 3] 0 [0, 1]).claimed
        = List.range (PoolConfig.mk 2 (fun _ => true) (fun _ => 3)).total ∧
     (∀ i, ((PoolState.mk 2 [WStatus.done] [3, 3] 0 [0, 1]).claimed.count i)
        = if i < (PoolConfig.mk 2 (fun _ => true) (fun _ => 3)).total then 1 else 0) ∧
     (PoolState.mk 2 [WStatus.done] [3, 3] 0 [0, 1]).latencies.length
        + (PoolState.mk 2 [WStatus.done] [3, 3] 0 [0, 1]).errors
        = (PoolConfig.mk 2 (fun _ => true) (fun _ => 3)).total) := by
  refine ⟨le_rfl, pool_exactly_once (PoolConfig.mk 2 (fun _ => true) (fun _ => 3))
    1 le_rfl (PoolState.mk 2 [WStatus.done] [3, 3] 0 [0, 1]) ?_ ?_⟩
  · have t1 : PoolStep (PoolConfig.mk 2 (fun _ => true) (fun _ => 3)) (initPool 1)
        (PoolState.mk 1 [WStatus.working 0] [] 0 [0]) :=
      PoolStep.claim (initPool 1) 0 rfl (by decide)
    have t2 : PoolStep (PoolConfig.mk 2 (fun _ => true) (fun _ => 3))
        (PoolState.mk 1 [WStatus.working 0] [] 0 [0])
        (PoolState.mk 1 [WStatus.idle] [3] 0 [0]) :=
      PoolStep.finish (PoolState.mk 1 [WStatus.working 0] [] 0 [0]) 0 0 rfl
    have t3 : PoolStep (PoolConfig.mk 2 (fun _ => true) (fun _ => 3))
        (PoolState.mk 1 [WStatus.idle] [3] 0 [0])
        (PoolState.mk 2 [WStatus.working 1] [3] 0 [0, 1]) :=
      PoolStep.claim (PoolState.mk 1 [WStatus.idle] [3] 0 [0]) 0 rfl (by decide)
    have t4 : PoolStep (PoolConfig.mk 2 (fun _ => true) (fun _ => 3))
        (PoolState.mk 2 [WStatus.working 1] [3] 0 [0, 1])
        (PoolState.mk 2 [WStatus.idle] [3, 3] 0 [0, 1]) :=
      PoolStep.finish (PoolState.mk 2 [WStatus.working 1] [3] 0 [0, 1]) 0 1 rfl
    have t5 : PoolStep (PoolConfig.mk 2 (fun _ => true) (fun _ => 3))
        (PoolState.mk 2 [WStatus.idle] [3, 3] 0 [0, 1])
        (PoolState.mk 2 [WStatus.done] [3, 3] 0 [0, 1]) :=
      PoolStep.exit (PoolState.mk 2 [WStatus.idle] [3, 3] 0 [0, 1]) 0 rfl (by decide)
    exact (((((Relation.ReflTransGen.refl.tail t1).tail t2).tail t3).tail t4).tail t5)
  · intro st hst
    simp at hst
    exact hst

/-! ## Claim C1 -/

/-- The per-configuration filter distributes over concatenation. -/
theorem configRuns_append (a b : List RecallRun) (ns : String) (k : ℕ) :
    configRuns (a ++ b) ns k = configRuns a ns k ++ configRuns b ns k := by
  simp [configRuns]

/-- Runs measured for a different pair never match the filter. -/
theorem configRuns_measurePair_ne (probe : String → ℕ → ℕ → ProbeResult)
    (ns' : String) (k' runsN : ℕ) (ns : String) (k : ℕ)
    (hne : (ns', k') ≠ (ns, k)) :
    configRuns (measurePair probe ns' k' runsN) ns k = [] := by
  rw [configRuns, List.filter_eq_nil_iff]
  intro r hr
  rw [measurePair] at hr
  obtain ⟨run, _, hrv⟩ := List.mem_map.mp hr
  subst hrv
  simp only [Bool.and_eq_true, beq_iff_eq, not_and]
  intro hns hk
  exact hne (by rw [hns, hk])

/-- Folding the per-configuration loop over any pair list, starting from a
state whose completed set already holds `(ns, k)`, never probes `(ns, k)`
and never adds a matching raw run. -/
theorem foldl_stepConfig_skip (probe : String → ℕ → ℕ → ProbeResult)
    (runsN : ℕ) (ns : String) (k : ℕ) :
    ∀ (pairs : List (String × ℕ)) (st : SweepState), (ns, k) ∈ st.completed →
      ((ns, k) ∈ (pairs.foldl (stepConfig probe runsN) st).completed ∧
       configRuns (pairs.foldl (stepConfig probe runsN) st).rawRuns ns k
         = configRuns st.rawRuns ns k ∧
       ∀ c ∈ (pairs.foldl (stepConfig probe runsN) st).calls,
         c ∈ st.calls ∨ ¬(c.1 = ns ∧ c.2.1 = k)) := by
  intro pairs
  induction pairs with
  | nil => intro st hmem; exact ⟨hmem, rfl, fun c hc => Or.inl hc⟩
  | cons p ps ih =>
    intro st hmem
    rw [List.foldl_cons]
    by_cases hskip : configKey p.1 p.2 ∈ st.completed
    · rw [stepConfig, if_pos hskip]
      exact ih st hmem
    · have hne : (p.1, p.2) ≠ (ns, k) := by
        intro he
        exact hskip (by rw [configKey, he]; exact hmem)
      have hst' : stepConfig probe runsN st p =
          { rawRuns := st.rawRuns ++ measurePair probe p.1 p.2 runsN
            completed := st.completed ++ [configKey p.1 p.2]
            calls := st.calls ++ (List.range runsN).map fun r => (p.1, p.2, r)
            saved := st.saved ++
              [{ raw_runs := st.rawRuns ++ measurePair probe p.1 p.2 runsN,
                 completedConfigs := st.completed ++ [configKey p.1 p.2] }] } := by
        rw [stepConfig, if_neg hskip]
      rw [hst']
      obtain ⟨ihm, ihr, ihc⟩ := ih
        { rawRuns := st.rawRuns ++ measurePair probe p.1 p.2 runsN
          completed := st.completed ++ [configKey p.1 p.2]
          calls := st.calls ++ (List.range runsN).map fun r => (p.1, p.2, r)
          saved := st.saved ++
            [{ raw_runs := st.rawRuns ++ measurePair probe p.1 p.2 runsN,
               completedConfigs := st.completed ++ [configKey p.1 p.2] }] }
        (List.mem_append_left _ hmem)
      refine ⟨ihm, ?_, ?_⟩
      · rw [ihr]
        show configRuns (st.rawRuns ++ measurePair probe p.1 p.2 runsN) ns k
          = configRuns st.rawRuns ns k
        rw [configRuns_append, configRuns_measurePair_ne probe p.1 p.2 runsN ns k hne,
          List.append_nil]
      · intro c hc
        rcases ihc c hc with hold | hnot
        · have hold' : c ∈ st.calls ++ (List.range runsN).map fun r => (p.1, p.2, r) :=
            hold
          rcases List.mem_append.mp hold' with h1 | h2
          · exact Or.inl h1
          · obtain ⟨r, _, hrv⟩ := List.mem_map.mp h2
            subst hrv
            refine Or.inr ?_
            intro hand
            exact hne (by rw [show p.1 = ns from hand.1, show p.2 = k from hand.2])
        · exact Or.inr hnot

/-- C1: in a sweep resumed from a loaded checkpoint, a pair whose key is
in the checkpoint's completed set is never probed (zero recall-probe
calls are issued for it), the raw runs matching it are exactly those
already stored in the checkpoint, and therefore its summary is computed
solely from the checkpoint's stored measurements. -/
theorem recall_completed_config_skipped (cp : Checkpoint)
    (namespaces : List String) (topKs : List ℕ) (runsN : ℕ)
    (probe : String → ℕ → ℕ → ProbeResult) (ns : String) (k : ℕ)
    (hmem : configKey ns k ∈ cp.completedConfigs) :
    (∀ r, (ns, k, r) ∉ (runSweep cp namespaces topKs runsN probe).calls) ∧
    configRuns (runSweep cp namespaces topKs runsN probe).rawRuns ns k
      = configRuns cp.raw_runs ns k ∧
    summarize (configRuns (runSweep cp namespaces topKs runsN probe).rawRuns ns k)
      = summarize (configRuns cp.raw_runs ns k) := by
  have h := foldl_stepConfig_skip probe runsN ns k (pairList namespaces topKs)
    { rawRuns := cp.raw_runs, completed := cp.completedConfigs,
      calls := [], saved := [] } hmem
  obtain ⟨_, hruns, hcalls⟩ := h
  refine ⟨?_, hruns, congrArg summarize hruns⟩
  intro r hr
  rcases hcalls (ns, k, r) hr with h1 | h2
  · simp at h1
  · exact h2 ⟨rfl, rfl⟩

/-- C1 witness: resuming with one pair already completed issues no calls
for it and summarises it from the checkpoint's stored run. -/
theorem recall_completed_config_skipped_witness :
    configKey nsA 5 ∈ (Checkpoint.mk
      [RecallRun.mk nsA 5 1 1 10 10 3] [(nsA, 5)]).completedConfigs ∧
    ((∀ r, (nsA, 5, r) ∉ (runSweep
        (Checkpoint.mk [RecallRun.mk nsA 5 1 1 10 10 3] [(nsA, 5)])
        [nsA] [5] 2 probeZero).calls) ∧
     configRuns (runSweep
        (Checkpoint.mk [RecallRun.mk nsA 5 1 1 10 10 3] [(nsA, 5)])
        [nsA] [5] 2 probeZero).rawRuns nsA 5
       = configRuns [RecallRun.mk nsA 5 1 1 10 10 3] nsA 5 ∧
     summarize (configRuns (runSweep
        (Checkpoint.mk [RecallRun.mk nsA 5 1 1 10 10 3] [(nsA, 5)])
        [nsA] [5] 2 probeZero).rawRuns nsA 5)
       = summarize (configRuns [RecallRun.mk nsA 5 1 1 10 10 3] nsA 5)) :=
  ⟨by decide, recall_completed_config_skipped
    (Checkpoint.mk [RecallRun.mk nsA 5 1 1 10 10 3] [(nsA, 5)])
    [nsA] [5] 2 probeZero nsA 5 (by decide)⟩

/-! ## Claim C10 -/

/-- Keys already completed stay completed along the per-configuration
fold. -/
theorem foldl_stepConfig_mono (probe : String → ℕ → ℕ → ProbeResult) (runsN : ℕ) :
    ∀ (pairs : List (String × ℕ)) (st : SweepState) (q : String × ℕ),
      q ∈ st.completed → q ∈ (pairs.foldl (stepConfig probe runsN) st).completed := by
  intro pairs
  induction pairs with
  | nil => intro st q hq; exact hq
  | cons p ps ih =>
    intro st q hq
    rw [List.foldl_cons]
    by_cases hskip : configKey p.1 p.2 ∈ st.completed
    · rw [stepConfig, if_pos hskip]
      exact ih st q hq
    · rw [stepConfig, if_neg hskip]
      exact ih _ q (List.mem_append_left _ hq)

/-- Every pair of the iterated list ends up completed. -/
theorem foldl_stepConfig_processed (probe : String → ℕ → ℕ → ProbeResult) (runsN : ℕ) :
    ∀ (pairs : List (String × ℕ)) (st : SweepState) (q : String × ℕ), q ∈ pairs →
      configKey q.1 q.2 ∈ (pairs.foldl (stepConfig probe runsN) st).completed := by
  intro pairs
  induction pairs with
  | nil => intro st q hq; simp at hq
  | cons p ps ih =>
    intro st q hq
    rw [List.foldl_cons]
    rcases List.mem_cons.mp hq with rfl | hq'
    · by_cases hskip : configKey q.1 q.2 ∈ st.completed
      · rw [stepConfig, if_pos hskip]
        exact foldl_stepConfig_mono probe runsN ps _ _ hskip
      · rw [stepConfig, if_neg hskip]
        refine foldl_stepConfig_mono probe runsN ps _ _ ?_
        exact List.mem_append_right _ (List.mem_singleton.mpr rfl)
    · by_cases hskip : configKey p.1 p.2 ∈ st.completed
      · rw [stepConfig, if_pos hskip]
        exact ih st q hq'
      · rw [stepConfig, if_neg hskip]
        exact ih _ q hq'

/-- With a positive run count, the per-configuration fold preserves sweep
well-formedness and the well-formedness of every checkpoint it saves. -/
theorem foldl_stepConfig_good (probe : String → ℕ → ℕ → ProbeResult)
    (runsN : ℕ) (hr : 1 ≤ runsN) :
    ∀ (pairs : List (String × ℕ)) (st : SweepState),
      SweepGood st → (∀ c ∈ st.saved, goodCheckpoint c) →
      SweepGood (pairs.foldl (stepConfig probe runsN) st) ∧
      ∀ c ∈ (pairs.foldl (stepConfig probe runsN) st).saved, goodCheckpoint c := by
  intro pairs
  induction pairs with
  | nil => intro st hg hs; exact ⟨hg, hs⟩
  | cons p ps ih =>
    intro st hg hs
    rw [List.foldl_cons]
    by_cases hskip : configKey p.1 p.2 ∈ st.completed
    · rw [stepConfig, if_pos hskip]
      exact ih st hg hs
    · rw [stepConfig, if_neg hskip]
      have hrun0 : (RecallRun.mk p.1 p.2 1 (probe p.1 p.2 0).avg_recall
          (probe p.1 p.2 0).avg_ann_count (probe p.1 p.2 0).avg_exhaustive_count
          (probe p.1 p.2 0).latency_ms) ∈ measurePair probe p.1 p.2 runsN := by
        rw [measurePair]
        refine List.mem_map.mpr ⟨0, List.mem_range.mpr (by omega), rfl⟩
      have hg' : SweepGood
          { rawRuns := st.rawRuns ++ measurePair probe p.1 p.2 runsN
            completed := st.completed ++ [configKey p.1 p.2]
            calls := st.calls ++ (List.range runsN).map fun r => (p.1, p.2, r)
            saved := st.saved ++
              [{ raw_runs := st.rawRuns ++ measurePair probe p.1 p.2 runsN,
                 completedConfigs := st.completed ++ [configKey p.1 p.2] }] } := by
        intro q hq
        rcases List.mem_append.mp hq with hold | hnew
        · obtain ⟨r, hrm, hre⟩ := hg q hold
          exact ⟨r, List.mem_append_left _ hrm, hre⟩
        · rw [List.mem_singleton.mp hnew]
          exact ⟨_, List.mem_append_right _ hrun0, rfl, rfl⟩
      refine ih _ hg' ?_
      intro c hc
      rcases List.mem_append.mp hc with hold | hnew
      · exact hs c hold
      · rw [List.mem_singleton.mp hnew]
        intro q hq
        exact hg' q hq

/-- With a positive run count and a well-formed starting checkpoint, every
summary the sweep computes is over a nonempty run list, so `summarize`
never receives the empty list. -/
theorem sweep_summaries_some (cp : Checkpoint) (namespaces : List String)
    (topKs : List ℕ) (runsN : ℕ) (probe : String → ℕ → ℕ → ProbeResult)
    (hr : 1 ≤ runsN) (hgood : goodCheckpoint cp) :
    ∀ o ∈ sweepSummaries namespaces topKs
        (runSweep cp namespaces topKs runsN probe).rawRuns, o ≠ none := by
  intro o ho
  rw [sweepSummaries] at ho
  obtain ⟨p, hp, hov⟩ := List.mem_map.mp ho
  subst hov
  have hkey : configKey p.1 p.2 ∈ (runSweep cp namespaces topKs runsN probe).completed :=
    foldl_stepConfig_processed probe runsN (pairList namespaces topKs) _ p hp
  have hgood' := (foldl_stepConfig_good probe runsN hr (pairList namespaces topKs)
    { rawRuns := cp.raw_runs, completed := cp.completedConfigs,
      calls := [], saved := [] }
    (fun q hq => hgood q hq) (by intro c hc; simp at hc)).1
  obtain ⟨r, hrm, hrns, hrk⟩ := hgood' (configKey p.1 p.2) hkey
  have hrmem : r ∈ configRuns (runSweep cp namespaces topKs runsN probe).rawRuns p.1 p.2 := by
    rw [configRuns]
    refine List.mem_filter.mpr ⟨hrm, ?_⟩
    simp [hrns, hrk, configKey]
  intro hn
  cases hcr : configRuns (runSweep cp namespaces topKs runsN probe).rawRuns p.1 p.2 with
  | nil => rw [hcr] at hrmem; simp at hrmem
  | cons a l => rw [hcr] at hn; simp [summarize] at hn

/-- C10 counterexample: the claimed mechanism cannot occur.  No sweep that
resumes from a well-formed checkpoint (as every checkpoint recorded by an
invocation with a positive run count is, whatever its namespace and
`top_k` option lists were) with a positive current run count ever passes
an empty run list to `summarize` — in particular, differing namespace or
`top_k` lists between the recording and the resuming invocation cannot
produce the claimed out-of-bounds access. -/
theorem no_empty_summarize_from_resume : ¬ emptySummarizeFromResume := by
  rw [emptySummarizeFromResume]
  rintro ⟨cp, nss, ks, rN, probe, hgood, hrN, hmem⟩
  exact sweep_summaries_some cp nss ks rN probe hrN hgood none hmem rfl

/-- C10 (amended): `summarize` is indeed partial — on the empty list the
source's unguarded `runs[0].namespace` access throws, modelled as `none` —
but the only reachable route to an empty run list in the summary loop is a
run count of zero, not a resume under different namespace or `top_k`
lists: every checkpoint saved by a sweep with a positive run count from a
well-formed start is well-formed, and a sweep with run count zero reaches
`summarize []` even without any checkpoint. -/
theorem summarize_partial_zero_runs :
    summarize [] = none ∧
    (∀ (cp : Checkpoint) (nss : List String) (ks : List ℕ) (rN : ℕ)
        (probe : String → ℕ → ℕ → ProbeResult), 1 ≤ rN → goodCheckpoint cp →
        ∀ c ∈ (runSweep cp nss ks rN probe).saved, goodCheckpoint c) ∧
    (∀ probe : String → ℕ → ℕ → ProbeResult,
      sweepSummaries [nsA] [5] (runSweep emptyCheckpoint [nsA] [5] 0 probe).rawRuns
        = [none]) := by
  refine ⟨rfl, ?_, ?_⟩
  · intro cp nss ks rN probe hrN hgood c hc
    exact (foldl_stepConfig_good probe rN hrN (pairList nss ks)
      { rawRuns := cp.raw_runs, completed := cp.completedConfigs,
        calls := [], saved := [] }
      (fun q hq => hgood q hq) (by intro c hc; simp at hc)).2 c hc
  · intro probe
    rfl

/-- C10 witness: the checkpoint saved by a one-pair, one-run sweep from an
empty start is well-formed. -/
theorem summarize_partial_zero_runs_witness :
    (1 ≤ 1 ∧ goodCheckpoint emptyCheckpoint) ∧
    goodCheckpoint (Checkpoint.mk
      [RecallRun.mk nsA 5 1 (probeZero nsA 5 0).avg_recall
        (probeZero nsA 5 0).avg_ann_count (probeZero nsA 5 0).avg_exhaustive_count
        (probeZero nsA 5 0).latency_ms]
      [(nsA, 5)]) := by
  refine ⟨⟨le_rfl, fun p hp => by simp [emptyCheckpoint] at hp⟩, ?_⟩
  exact summarize_partial_zero_runs.2.1 emptyCheckpoint [nsA] [5] 1 probeZero le_rfl
    (fun p hp => by simp [emptyCheckpoint] at hp) _ (by decide)

end VDB
